import Mathlib

/-!
Verification development for the Gmail-Reception content script
(`src/content-script.js`).  The definitions below are a shallow embedding of
the scoring pipeline: the pure data transformations of `fetchMessages`,
`scoreRecentEmails`, `modifyEmail`, `renderEmails` and the profile-freshness
decision of `analyzeAndDisplayEmails` are translated into Lean functions.
Network and AI interactions are modelled by explicit outcome values (the
response the remote side would produce), so every function is executable.
-/

/-- A fetched Gmail message as used by the scoring loop
(`id`, `snippet`; headers are irrelevant to the proved properties). -/
structure Email where
  id : String
  snippet : String
deriving DecidableEq, Repr

/-- The `analysisData` record attached to each processed email
(content-script.js lines 212-219, 261-266). -/
structure AnalysisData where
  id : String
  score : Int
  summarizedTitle : String
  summaryPoints : List String
  positiveReasons : List String
  negativeReasons : List String
deriving DecidableEq, Repr

/-- One element of the `processedEmails` array: the spread email joined with
its `analysisData` (content-script.js lines 210-220). -/
structure ProcessedEmail where
  email : Email
  analysisData : AnalysisData
deriving DecidableEq, Repr

/-- The pending placeholder seeded for every message the instant it enters
the scoring window (content-script.js lines 212-219). -/
def placeholderData (e : Email) : AnalysisData :=
  { id := e.id, score := -1, summarizedTitle := "Analyzing...",
    summaryPoints := [], positiveReasons := [], negativeReasons := [] }

/-- `recentEmails.map(email => ({...email, analysisData: {...}}))`
(content-script.js lines 210-220). -/
def seedEmails (emails : List Email) : List ProcessedEmail :=
  emails.map fun e => { email := e, analysisData := placeholderData e }

/-- The synthetic failure record written when a batch inference call fails
(content-script.js lines 305-312). -/
def failureData (id : String) : AnalysisData :=
  { id := id, score := 0, summarizedTitle := "AI analysis failed for this email.",
    summaryPoints := [], positiveReasons := [],
    negativeReasons := ["AI model failed to process this batch."] }

/-- `processedEmails.findIndex(e => e.id === targetId)`
(content-script.js lines 287-289, 301-303); `none` models `-1`. -/
def findIdxById (t : String) : List ProcessedEmail → Option Nat
  | [] => none
  | pe :: pes => if pe.email.id == t then some 0 else (findIdxById t pes).map (· + 1)

/-- In-place assignment `processedEmails[emailIndex].analysisData = a`
modelled as returning the updated array content. -/
def setAnalysisAt : List ProcessedEmail → Nat → AnalysisData → List ProcessedEmail
  | [], _, _ => []
  | pe :: pes, 0, a => { pe with analysisData := a } :: pes
  | pe :: pes, n + 1, a => pe :: setAnalysisAt pes n a

/-- The body of the per-result callback: find the first processed email whose
id matches and overwrite its `analysisData`; if no index matches, do nothing
(content-script.js lines 286-293 and 300-314 share this shape). -/
def updateById (pes : List ProcessedEmail) (t : String) (a : AnalysisData) :
    List ProcessedEmail :=
  match findIdxById t pes with
  | some i => setAnalysisAt pes i a
  | none => pes

/-- Success-path merge: `batchResults.forEach(...)` — for each returned
result in array order, overwrite the first matching entry of the whole
accumulated collection (content-script.js lines 285-294). -/
def mergeSuccess (pes : List ProcessedEmail) (rs : List AnalysisData) :
    List ProcessedEmail :=
  rs.foldl (fun acc r => updateById acc r.id r) pes

/-- Failure-path merge: `batch.forEach(failedEmail => ...)`, writing the
synthetic failure record for each message of the failed batch
(content-script.js lines 300-314). -/
def mergeFailure (pes : List ProcessedEmail) (batch : List Email) :
    List ProcessedEmail :=
  batch.foldl (fun acc e => updateById acc e.id (failureData e.id)) pes

/-- Outcome of one `aiSession.prompt` + `JSON.parse` round trip for a batch:
`ok rs` = parsed to an array, `notArray` = parsed JSON that is not an array
(the `Array.isArray` guard fails, merge silently skipped), `err` = the prompt
rejected or `JSON.parse` threw (the `catch` branch runs). -/
inductive BatchOutcome where
  | ok (results : List AnalysisData)
  | notArray
  | err
deriving DecidableEq, Repr

/-- One iteration of the batch loop body applied to the accumulated
collection (content-script.js lines 279-315). -/
def processBatch (pes : List ProcessedEmail) (batch : List Email)
    (o : BatchOutcome) : List ProcessedEmail :=
  match o with
  | BatchOutcome.ok rs => mergeSuccess pes rs
  | BatchOutcome.notArray => pes
  | BatchOutcome.err => mergeFailure pes batch

/-- `for (let i = 0; i < recentEmails.length; i += BATCH_SIZE)
slice(i, i + BATCH_SIZE)` with `BATCH_SIZE = 5` (content-script.js
lines 223-226): partition into chunks of five, last chunk possibly short. -/
def chunk5 {α : Type} : List α → List (List α)
  | [] => []
  | [a] => [[a]]
  | [a, b] => [[a, b]]
  | [a, b, c] => [[a, b, c]]
  | [a, b, c, d] => [[a, b, c, d]]
  | a :: b :: c :: d :: e :: rest => [a, b, c, d, e] :: chunk5 rest

/-- The batch loop, producing the sink payload (the whole accumulated
collection) after each batch; `ai k` is the outcome of batch `k`'s inference
call (content-script.js lines 225-317). -/
def runBatches (ai : Nat → BatchOutcome) :
    List (List Email) → Nat → List ProcessedEmail → List (List ProcessedEmail)
  | [], _, _ => []
  | b :: bs, k, pes =>
      let next := processBatch pes b (ai k)
      next :: runBatches ai bs (k + 1) next

/-- The batch loop's final accumulated collection. -/
def runFinal (ai : Nat → BatchOutcome) :
    List (List Email) → Nat → List ProcessedEmail → List ProcessedEmail
  | [], _, pes => pes
  | b :: bs, k, pes => runFinal ai bs (k + 1) (processBatch pes b (ai k))

/-- The sequence of `onBatchProcessed` payloads produced by
`scoreRecentEmails` for a fetched window (content-script.js lines 202-317):
empty window → one call with `[]`; otherwise the placeholder seed followed by
one payload per batch. -/
def scoreRecentTrace (fetched : List Email) (ai : Nat → BatchOutcome) :
    List (List ProcessedEmail) :=
  if fetched.isEmpty then [[]]
  else
    let seeded := seedEmails fetched
    seeded :: runBatches ai (chunk5 fetched) 0 seeded

/-- The accumulated collection at the end of `scoreRecentEmails`. -/
def scoreRecentFinal (fetched : List Email) (ai : Nat → BatchOutcome) :
    List ProcessedEmail :=
  if fetched.isEmpty then []
  else runFinal ai (chunk5 fetched) 0 (seedEmails fetched)

/-- Number of `aiSession.prompt` invocations performed by
`scoreRecentEmails`: one per loop iteration, i.e. one per batch; zero when
the function returns early on an empty window. -/
def scoreRecentAiCalls (fetched : List Email) : Nat :=
  (chunk5 fetched).length

/-! ### `fetchMessages` (content-script.js lines 56-94)

The interaction with the Gmail REST surface is abstracted into the outcome
the remote side produces for one `fetchMessages` call; the function body's
control flow (early token check, the `try` region that throws on a non-ok
list response or a rejected detail fetch, the `catch` that logs and returns
`[]`) is translated directly. -/

/-- What the mail store does for one `fetchMessages` call. -/
inductive MailFetch where
  /-- The list request resolved with a non-ok HTTP status
  (`if (!listRes.ok) throw ...`). -/
  | listHttpError (status : Nat)
  /-- The list request itself rejected (network failure). -/
  | listNetworkError
  /-- The list response parsed but had no `messages` field. -/
  | noMessages
  /-- Some per-message detail fetch rejected, so `Promise.all` rejects. -/
  | detailNetworkError
  /-- Every request succeeded, yielding these full messages. -/
  | fetched (emails : List Email)
deriving DecidableEq, Repr

/-- The `try` region of `fetchMessages`: everything up to the `catch`,
returning `Except.error` exactly where the source throws or awaits a
rejected promise. -/
def fetchMessagesBody : MailFetch → Except String (List Email)
  | MailFetch.listHttpError status => Except.error ("API list failed: " ++ toString status)
  | MailFetch.listNetworkError => Except.error "network error"
  | MailFetch.noMessages => Except.ok []
  | MailFetch.detailNetworkError => Except.error "network error"
  | MailFetch.fetched emails => Except.ok emails

/-- `fetchMessages`: no token → `[]`; otherwise run the `try` region and
degrade any error to `[]` in the `catch` (content-script.js lines 90-93). -/
def fetchMessages (hasToken : Bool) (m : MailFetch) : List Email :=
  if !hasToken then []
  else
    match fetchMessagesBody m with
    | Except.ok emails => emails
    | Except.error _ => []

/-- `scoreRecentEmails` from its own entry: throws only when no AI session
exists (line 193); the window fetch goes through `fetchMessages`, and the
rest of the body never throws.  The result is the sequence of sink payloads
wrapped in `Except` to record whether the overall operation rejected. -/
def scoreRecentRun (hasAiSession hasToken : Bool) (m : MailFetch)
    (ai : Nat → BatchOutcome) : Except String (List (List ProcessedEmail)) :=
  if !hasAiSession then Except.error "AI session not available."
  else Except.ok (scoreRecentTrace (fetchMessages hasToken m) ai)

/-! ### `modifyEmail` (content-script.js lines 324-350) -/

/-- Outcome of the `POST .../modify` request. -/
inductive HttpOutcome where
  | networkError
  | response (status : Nat)
deriving DecidableEq, Repr

/-- `Response.ok`: status in the 2xx range. -/
def statusOk (s : Nat) : Bool := 200 ≤ s && s < 300

/-- `modifyEmail`: the token check throws OUTSIDE the `try` block
(line 325); inside it, a non-ok response throws and the `catch` returns
`false`; an ok response returns `true`. -/
def modifyEmail (hasToken : Bool) (messageId : String)
    (addLabelIds removeLabelIds : List String) (o : HttpOutcome) :
    Except String Bool :=
  if !hasToken then Except.error "Authentication token not found."
  else
    match o with
    | HttpOutcome.networkError => Except.ok false
    | HttpOutcome.response s =>
        if statusOk s then Except.ok true else Except.ok false

/-! ### `renderEmails` sort (content-script.js lines 414-424)

`emails.sort((a, b) => b.analysisData.score - a.analysisData.score)` — an
in-place sort of the caller's array with a score-descending comparator.
`Array.prototype.sort` is specified to be stable, and for a comparator that
is a consistent total preorder (comparison by score) the stable-sorted
result is unique, so any stable sorting algorithm is a faithful model; we
use insertion sort, inserting each element before the first element whose
score is not greater.  `renderEmails` is modelled by its effect on the
collection it is handed: the array content after the call. -/

/-- Stable descending insertion step. -/
def sortInsert (e : ProcessedEmail) : List ProcessedEmail → List ProcessedEmail
  | [] => [e]
  | x :: xs =>
      if x.analysisData.score > e.analysisData.score then x :: sortInsert e xs
      else e :: x :: xs

/-- The stable score-descending sort performed by `renderEmails`. -/
def sortByScoreDesc (l : List ProcessedEmail) : List ProcessedEmail :=
  l.foldr sortInsert []

/-- Effect of `renderEmails` on the collection it receives: the empty case
returns before the sort; otherwise the shared array is sorted in place. -/
def renderEmails (emails : List ProcessedEmail) : List ProcessedEmail :=
  if emails.isEmpty then emails else sortByScoreDesc emails

/-! ### Profile freshness (content-script.js lines 6, 371-389) -/

/-- The persisted user profile (four required arrays). -/
structure UserProfile where
  highPrioritySenders : List String
  highPriorityKeywords : List String
  lowPrioritySenders : List String
  lowPriorityKeywords : List String
deriving DecidableEq, Repr

/-- `24 * 60 * 60 * 1000` milliseconds (content-script.js line 6). -/
def PROFILE_REFRESH_INTERVAL : Int := 24 * 60 * 60 * 1000

/-- `!lastAnalysis || Date.now() - lastAnalysis > PROFILE_REFRESH_INTERVAL`
(line 377-378); `some 0` is falsy in the source, hence the `t == 0` arm. -/
def isProfileStale (lastAnalysis : Option Int) (now : Int) : Bool :=
  match lastAnalysis with
  | none => true
  | some t => t == 0 || now - t > PROFILE_REFRESH_INTERVAL

/-- The profile decision of `analyzeAndDisplayEmails` (lines 375-389):
returns the profile used for the scan and whether the builder
(`generateUserProfile`) was invoked. -/
def getOrBuildProfile (stored : Option UserProfile) (lastAnalysis : Option Int)
    (now : Int) (builderResult : UserProfile) : UserProfile × Bool :=
  match stored with
  | none => (builderResult, true)
  | some p =>
      if isProfileStale lastAnalysis now then (builderResult, true)
      else (p, false)

/-! ### Derived notions used in the statements -/

/-- The ids of the accumulated window collection, in order. -/
def windowIds (pes : List ProcessedEmail) : List String :=
  pes.map fun pe => pe.email.id

/-- The ids of a returned result array, in order. -/
def resultIds (rs : List AnalysisData) : List String :=
  rs.map fun r => r.id

/-- The ids of a list of emails, in order. -/
def emailIds (es : List Email) : List String :=
  es.map fun e => e.id

/-- The last entry of `rs` carrying id `t`: under the sequential
`forEach` overwrites of `mergeSuccess`, the last write wins. -/
def lastScoreFor (t : String) : List AnalysisData → Option AnalysisData
  | [] => none
  | r :: rs =>
      match lastScoreFor t rs with
      | some a => some a
      | none => if r.id == t then some r else none

/-- Pointwise description of `mergeSuccess` on one entry. -/
def applyLast (rs : List AnalysisData) (pe : ProcessedEmail) : ProcessedEmail :=
  match lastScoreFor pe.email.id rs with
  | some a => { pe with analysisData := a }
  | none => pe

/-! ### Lemmas about `updateById` -/

theorem updateById_cons (pe : ProcessedEmail) (pes : List ProcessedEmail)
    (t : String) (a : AnalysisData) :
    updateById (pe :: pes) t a =
      if pe.email.id == t then { pe with analysisData := a } :: pes
      else pe :: updateById pes t a := by
  cases h : pe.email.id == t with
  | true =>
      simp only [updateById, findIdxById, h, if_true, setAnalysisAt]
  | false =>
      simp only [updateById, findIdxById, h, Bool.false_eq_true, if_false]
      cases hfi : findIdxById t pes with
      | none => simp [hfi]
      | some i => simp [hfi, setAnalysisAt]

theorem getElem?_updateById_ne (pes : List ProcessedEmail) (t : String)
    (a : AnalysisData) (i : Nat) (pe : ProcessedEmail)
    (hi : pes[i]? = some pe) (hne : pe.email.id ≠ t) :
    (updateById pes t a)[i]? = some pe := by
  induction pes generalizing i with
  | nil => simp at hi
  | cons x xs ih =>
      rw [updateById_cons]
      cases h : x.email.id == t with
      | true =>
          simp only [h, if_true]
          cases i with
          | zero =>
              simp only [List.getElem?_cons_zero, Option.some.injEq] at hi
              exact absurd (hi ▸ (beq_iff_eq.mp h)) hne
          | succ n =>
              simpa using hi
      | false =>
          simp only [h, Bool.false_eq_true, if_false]
          cases i with
          | zero => simpa using hi
          | succ n =>
              simp only [List.getElem?_cons_succ] at hi ⊢
              exact ih n hi

theorem windowIds_updateById (pes : List ProcessedEmail) (t : String)
    (a : AnalysisData) : windowIds (updateById pes t a) = windowIds pes := by
  induction pes with
  | nil => rfl
  | cons x xs ih =>
      rw [updateById_cons]
      cases h : x.email.id == t with
      | true => simp [windowIds]
      | false => simpa [windowIds] using ih

theorem updateById_eq_map (pes : List ProcessedEmail) (t : String)
    (a : AnalysisData) (h : (windowIds pes).Nodup) :
    updateById pes t a =
      pes.map fun pe =>
        if pe.email.id == t then { pe with analysisData := a } else pe := by
  induction pes with
  | nil => rfl
  | cons x xs ih =>
      simp only [windowIds, List.map_cons, List.nodup_cons] at h
      obtain ⟨hx, hxs⟩ := h
      rw [updateById_cons]
      cases hxt : x.email.id == t with
      | true =>
          simp only [hxt, if_true, List.map_cons]
          congr 1
          have hcong : ∀ pe ∈ xs,
              (if pe.email.id == t then { pe with analysisData := a } else pe) = id pe := by
            intro pe hpe
            have hpet : pe.email.id ≠ t := by
              intro hc
              apply hx
              rw [beq_iff_eq.mp hxt, ← hc]
              exact List.mem_map_of_mem _ hpe
            simp [hpet]
          exact ((List.map_congr_left hcong).trans (List.map_id xs)).symm
      | false =>
          simp only [hxt, Bool.false_eq_true, if_false, List.map_cons]
          rw [ih hxs]

/-! ### Characterization of the merges -/

theorem mergeSuccess_nil (pes : List ProcessedEmail) : mergeSuccess pes [] = pes := rfl

theorem mergeSuccess_cons (pes : List ProcessedEmail) (r : AnalysisData)
    (rs : List AnalysisData) :
    mergeSuccess pes (r :: rs) = mergeSuccess (updateById pes r.id r) rs := rfl

/-- Under distinct window ids, the whole success merge is a pointwise map:
each entry receives the last returned result carrying its id, if any. -/
theorem mergeSuccess_eq_map (pes : List ProcessedEmail) (rs : List AnalysisData)
    (h : (windowIds pes).Nodup) :
    mergeSuccess pes rs = pes.map (applyLast rs) := by
  induction rs generalizing pes with
  | nil =>
      rw [mergeSuccess_nil]
      have : ∀ pe ∈ pes, applyLast [] pe = id pe := by
        intro pe _
        simp [applyLast, lastScoreFor]
      exact ((List.map_congr_left this).trans (List.map_id pes)).symm
  | cons r rs ih =>
      rw [mergeSuccess_cons,
        ih (updateById pes r.id r) (by rw [windowIds_updateById]; exact h),
        updateById_eq_map pes r.id r h, List.map_map]
      apply List.map_congr_left
      intro pe _
      show applyLast rs
        (if pe.email.id == r.id then { pe with analysisData := r } else pe)
        = applyLast (r :: rs) pe
      cases hid : pe.email.id == r.id with
      | true =>
          have hid' : r.id == pe.email.id := by
            rw [beq_iff_eq]
            exact (beq_iff_eq.mp hid).symm
          cases hl : lastScoreFor pe.email.id rs with
          | some a => simp [applyLast, lastScoreFor, hid, hl]
          | none => simp [applyLast, lastScoreFor, hid, hid', hl]
      | false =>
          have hid' : (r.id == pe.email.id) = false := by
            rw [beq_eq_false_iff_ne]
            intro hc
            rw [beq_eq_false_iff_ne] at hid
            exact hid hc.symm
          cases hl : lastScoreFor pe.email.id rs with
          | some a => simp [applyLast, lastScoreFor, hid, hl]
          | none => simp [applyLast, lastScoreFor, hid, hid', hl]

theorem lastScoreFor_of_not_mem (t : String) (rs : List AnalysisData)
    (h : t ∉ resultIds rs) : lastScoreFor t rs = none := by
  induction rs with
  | nil => rfl
  | cons r rs ih =>
      simp only [resultIds, List.map_cons, List.mem_cons, not_or] at h
      obtain ⟨hr, hrs⟩ := h
      have hne : (r.id == t) = false := by
        rw [beq_eq_false_iff_ne]
        intro hc
        exact hr hc.symm
      simp [lastScoreFor, ih (by simpa [resultIds] using hrs), hne]

theorem lastScoreFor_of_mem (rs : List AnalysisData) (r : AnalysisData)
    (t : String) (hn : (resultIds rs).Nodup) (hr : r ∈ rs) (ht : r.id = t) :
    lastScoreFor t rs = some r := by
  induction rs with
  | nil => simp at hr
  | cons x xs ih =>
      simp only [resultIds, List.map_cons, List.nodup_cons] at hn
      obtain ⟨hx, hxs⟩ := hn
      rcases List.mem_cons.mp hr with hrx | hrxs
      · subst hrx
        have : lastScoreFor t xs = none := by
          apply lastScoreFor_of_not_mem
          rw [← ht]
          simpa [resultIds] using hx
        simp [lastScoreFor, this, beq_iff_eq.mpr ht]
      · have := ih (by simpa [resultIds] using hxs) hrxs
        simp [lastScoreFor, this]

/-- Pointwise form of the success merge under distinct window ids. -/
theorem getElem?_mergeSuccess (pes : List ProcessedEmail)
    (rs : List AnalysisData) (i : Nat) (pe : ProcessedEmail)
    (h : (windowIds pes).Nodup) (hi : pes[i]? = some pe) :
    (mergeSuccess pes rs)[i]? = some (applyLast rs pe) := by
  rw [mergeSuccess_eq_map pes rs h, List.getElem?_map, hi]
  rfl

/-- An entry whose id never occurs in the returned array is untouched by the
success merge — no distinctness assumption needed. -/
theorem getElem?_mergeSuccess_not_mem (pes : List ProcessedEmail)
    (rs : List AnalysisData) (i : Nat) (pe : ProcessedEmail)
    (hi : pes[i]? = some pe) (h : pe.email.id ∉ resultIds rs) :
    (mergeSuccess pes rs)[i]? = some pe := by
  induction rs generalizing pes with
  | nil => simpa using hi
  | cons r rs ih =>
      simp only [resultIds, List.map_cons, List.mem_cons, not_or] at h
      obtain ⟨hr, hrs⟩ := h
      rw [mergeSuccess_cons]
      exact ih (updateById pes r.id r)
        (getElem?_updateById_ne pes r.id r i pe hi hr)
        (by simpa [resultIds] using hrs)

/-- The failure merge is the success merge applied to synthetic failure
records, one per batch message. -/
theorem mergeFailure_eq_mergeSuccess (pes : List ProcessedEmail)
    (batch : List Email) :
    mergeFailure pes batch =
      mergeSuccess pes (batch.map fun e => failureData e.id) := by
  unfold mergeFailure mergeSuccess
  rw [List.foldl_map]
  rfl

/-! ### Batch partitioning and the loop -/

theorem chunk5_length_aux {α : Type} :
    ∀ (n : Nat) (l : List α), l.length ≤ n →
      (chunk5 l).length = (l.length + 4) / 5 := by
  intro n
  induction n with
  | zero =>
      intro l h
      have : l = [] := List.eq_nil_of_length_eq_zero (Nat.le_zero.mp h)
      subst this
      simp only [chunk5, List.length_nil]
  | succ n ih =>
      intro l h
      match l with
      | [] => simp only [chunk5, List.length_nil]
      | [a] => simp only [chunk5, List.length_cons, List.length_nil]
      | [a, b] => simp only [chunk5, List.length_cons, List.length_nil]
      | [a, b, c] => simp only [chunk5, List.length_cons, List.length_nil]
      | [a, b, c, d] => simp only [chunk5, List.length_cons, List.length_nil]
      | a :: b :: c :: d :: e :: rest =>
          have hr : rest.length ≤ n := by
            simp only [List.length_cons] at h
            omega
          have hrec := ih rest hr
          simp only [chunk5, List.length_cons, hrec]
          omega

/-- Number of batches: `⌈n / 5⌉`. -/
theorem chunk5_length {α : Type} (l : List α) :
    (chunk5 l).length = (l.length + 4) / 5 :=
  chunk5_length_aux l.length l (Nat.le_refl _)

/-- A nonempty window of at most five messages forms a single batch. -/
theorem chunk5_small {α : Type} (l : List α) (hne : l ≠ [])
    (hlen : l.length ≤ 5) : chunk5 l = [l] := by
  match l with
  | [] => exact absurd rfl hne
  | [a] => rfl
  | [a, b] => rfl
  | [a, b, c] => rfl
  | [a, b, c, d] => rfl
  | a :: b :: c :: d :: e :: rest =>
      have : rest = [] := by
        cases rest with
        | nil => rfl
        | cons x xs => simp only [List.length_cons] at hlen; omega
      subst this
      rfl

/-- The loop delivers one sink payload per batch, whatever each batch's
inference outcome is: a failed batch never aborts subsequent batches. -/
theorem runBatches_length (ai : Nat → BatchOutcome) (bs : List (List Email))
    (k : Nat) (pes : List ProcessedEmail) :
    (runBatches ai bs k pes).length = bs.length := by
  induction bs generalizing k pes with
  | nil => rfl
  | cons b bs ih => simp [runBatches, ih]

/-! ### Lemmas about the stable score-descending sort -/

/-- The comparator order of `renderEmails`: `a` sorts no later than `b`. -/
def scoreGE (a b : ProcessedEmail) : Prop :=
  b.analysisData.score ≤ a.analysisData.score

theorem sortInsert_perm (e : ProcessedEmail) (l : List ProcessedEmail) :
    List.Perm (sortInsert e l) (e :: l) := by
  induction l with
  | nil => exact List.Perm.refl _
  | cons x xs ih =>
      by_cases h : x.analysisData.score > e.analysisData.score
      · rw [sortInsert, if_pos h]
        exact (ih.cons x).trans (List.Perm.swap e x xs)
      · rw [sortInsert, if_neg h]

theorem pairwise_sortInsert (e : ProcessedEmail) (l : List ProcessedEmail)
    (h : l.Pairwise scoreGE) : (sortInsert e l).Pairwise scoreGE := by
  induction l with
  | nil => simp [sortInsert]
  | cons x xs ih =>
      obtain ⟨hx, hxs⟩ := List.pairwise_cons.mp h
      by_cases hc : x.analysisData.score > e.analysisData.score
      · rw [sortInsert, if_pos hc]
        refine List.pairwise_cons.mpr ⟨?_, ih hxs⟩
        intro b hb
        rcases List.mem_cons.mp ((sortInsert_perm e xs).mem_iff.mp hb) with hbe | hbxs
        · subst hbe
          exact le_of_lt hc
        · exact hx b hbxs
      · rw [sortInsert, if_neg hc]
        refine List.pairwise_cons.mpr ⟨?_, h⟩
        intro b hb
        rcases List.mem_cons.mp hb with hbx | hbxs
        · subst hbx
          exact not_lt.mp hc
        · exact le_trans (hx b hbxs) (not_lt.mp hc)

theorem sorted_sortByScoreDesc (l : List ProcessedEmail) :
    (sortByScoreDesc l).Pairwise scoreGE := by
  induction l with
  | nil => exact List.Pairwise.nil
  | cons x xs ih => exact pairwise_sortInsert x _ ih

theorem sortByScoreDesc_perm (l : List ProcessedEmail) :
    List.Perm (sortByScoreDesc l) l := by
  induction l with
  | nil => exact List.Perm.refl _
  | cons x xs ih => exact (sortInsert_perm x _).trans (ih.cons x)

theorem filter_sortInsert (e : ProcessedEmail) (l : List ProcessedEmail)
    (s : Int) :
    (sortInsert e l).filter (fun x => x.analysisData.score == s) =
      if e.analysisData.score == s
      then e :: l.filter (fun x => x.analysisData.score == s)
      else l.filter (fun x => x.analysisData.score == s) := by
  induction l with
  | nil =>
      rw [sortInsert]
      cases he : e.analysisData.score == s with
      | true => simp [he]
      | false => simp [he]
  | cons x xs ih =>
      by_cases hc : x.analysisData.score > e.analysisData.score
      · rw [sortInsert, if_pos hc, List.filter_cons, ih]
        cases he : e.analysisData.score == s with
        | true =>
            have hx : (x.analysisData.score == s) = false := by
              rw [beq_eq_false_iff_ne]
              intro hxe
              rw [beq_iff_eq] at he
              omega
            simp [he, hx, List.filter_cons]
        | false =>
            cases hx : x.analysisData.score == s with
            | true => simp [he, hx, List.filter_cons]
            | false => simp [he, hx, List.filter_cons]
      · rw [sortInsert, if_neg hc, List.filter_cons, List.filter_cons]

/-- Stability of the presentation sort: the subsequence of entries carrying
any fixed score is exactly the corresponding subsequence of the input. -/
theorem filter_sortByScoreDesc (l : List ProcessedEmail) (s : Int) :
    (sortByScoreDesc l).filter (fun x => x.analysisData.score == s) =
      l.filter (fun x => x.analysisData.score == s) := by
  induction l with
  | nil => rfl
  | cons x xs ih =>
      show (sortInsert x (sortByScoreDesc xs)).filter _ = _
      rw [filter_sortInsert, List.filter_cons]
      cases hx : x.analysisData.score == s with
      | true => simp [hx, ih]
      | false => simp [hx, ih]

theorem updateById_not_mem (pes : List ProcessedEmail) (t : String)
    (a : AnalysisData) (h : t ∉ windowIds pes) : updateById pes t a = pes := by
  induction pes with
  | nil => rfl
  | cons x xs ih =>
      simp only [windowIds, List.map_cons, List.mem_cons, not_or] at h
      obtain ⟨hx, hxs⟩ := h
      have hne : (x.email.id == t) = false := by
        rw [beq_eq_false_iff_ne]
        intro hc
        exact hx hc.symm
      rw [updateById_cons, hne]
      simp only [Bool.false_eq_true, if_false]
      rw [ih (by simpa [windowIds] using hxs)]

theorem windowIds_seedEmails (emails : List Email) :
    windowIds (seedEmails emails) = emailIds emails := by
  simp only [windowIds, seedEmails, List.map_map, emailIds]
  rfl

theorem getElem?_seedEmails (emails : List Email) (i : Nat) (e : Email)
    (hi : emails[i]? = some e) :
    (seedEmails emails)[i]? = some ⟨e, placeholderData e⟩ := by
  unfold seedEmails
  rw [List.getElem?_map, hi]
  rfl

theorem resultIds_failureRecords (batch : List Email) :
    resultIds (batch.map fun e => failureData e.id) = emailIds batch := by
  simp only [resultIds, List.map_map, emailIds]
  rfl

/-- Sorting an already score-sorted list leaves it unchanged. -/
theorem sortByScoreDesc_of_pairwise (l : List ProcessedEmail)
    (h : l.Pairwise scoreGE) : sortByScoreDesc l = l := by
  induction l with
  | nil => rfl
  | cons x xs ih =>
      obtain ⟨hx, hxs⟩ := List.pairwise_cons.mp h
      show sortInsert x (sortByScoreDesc xs) = x :: xs
      rw [ih hxs]
      cases xs with
      | nil => rfl
      | cons y ys =>
          rw [sortInsert, if_neg]
          exact not_lt.mpr (hx y (List.mem_cons_self y ys))

/-! ## Claim theorems -/

/-- C1 counterexample: with the mail store rejecting the window-list fetch,
`scoreRecentEmails` does NOT reject — it resolves successfully and delivers
the single empty sink payload, exactly the behavior of a merely empty
window.  The claimed asymmetry (degrade for historical sampling, propagate
for the scoring window) does not exist: both paths go through the same
`fetchMessages` catch. -/
theorem scoreRecent_windowFetchError_notPropagated :
    scoreRecentRun true true MailFetch.listNetworkError (fun _ => BatchOutcome.err)
      = Except.ok [[]]
    ∧ scoreRecentRun true true MailFetch.listNetworkError (fun _ => BatchOutcome.err)
      = scoreRecentRun true true MailFetch.noMessages (fun _ => BatchOutcome.err) :=
  ⟨rfl, rfl⟩

/-- C1 (amended): every erroring window fetch is degraded to an empty result
by the `catch` inside `fetchMessages` — in `scoreRecentEmails`'s own window
fetch exactly as in historical-profile sampling — so `scoreRecentEmails`
proceeds as for an empty window: it resolves with one empty sink payload and
never rejects because of the fetch. -/
theorem scoreRecent_windowFetchError_degraded (m : MailFetch) (tok : Bool)
    (ai : Nat → BatchOutcome)
    (h : ∃ msg, fetchMessagesBody m = Except.error msg) :
    fetchMessages tok m = []
    ∧ scoreRecentRun true tok m ai = Except.ok [[]] := by
  obtain ⟨msg, hmsg⟩ := h
  have hfe : fetchMessages tok m = [] := by
    unfold fetchMessages
    rw [hmsg]
    cases tok <;> rfl
  refine ⟨hfe, ?_⟩
  simp [scoreRecentRun, hfe, scoreRecentTrace]

theorem scoreRecent_windowFetchError_degraded_witness :
    (∃ msg, fetchMessagesBody MailFetch.listNetworkError = Except.error msg)
    ∧ fetchMessages true MailFetch.listNetworkError = []
    ∧ scoreRecentRun true true MailFetch.listNetworkError
        (fun _ => BatchOutcome.ok []) = Except.ok [[]] := by
  have h : ∃ msg, fetchMessagesBody MailFetch.listNetworkError = Except.error msg :=
    ⟨"network error", rfl⟩
  have := scoreRecent_windowFetchError_degraded MailFetch.listNetworkError true
    (fun _ => BatchOutcome.ok []) h
  exact ⟨h, this.1, this.2⟩

/-- C2 counterexample: window `[A, B]`, one successful batch whose returned
array omits `B`.  B's placeholder is NOT replaced by the synthetic failure
record — it stays pending at score `-1`. -/
theorem scoreRecent_omittedId_notFailureRecord :
    scoreRecentFinal [⟨"A", "sa"⟩, ⟨"B", "sb"⟩]
        (fun _ => BatchOutcome.ok [⟨"A", 90, "ta", [], [], []⟩])
      = [⟨⟨"A", "sa"⟩, ⟨"A", 90, "ta", [], [], []⟩⟩,
         ⟨⟨"B", "sb"⟩, placeholderData ⟨"B", "sb"⟩⟩]
    ∧ (placeholderData ⟨"B", "sb"⟩).score = -1
    ∧ placeholderData ⟨"B", "sb"⟩ ≠ failureData "B" := by
  refine ⟨by decide, by decide, by decide⟩

/-- C2 (amended): when a batch's inference call succeeds but its returned
array omits a message's id, that message KEEPS its pending placeholder
(`score = -1`, `"Analyzing..."`); it is not replaced by a synthetic failure
record — synthetic failure records are produced only when the batch call
fails. -/
theorem scoreRecent_omittedId_keepsPlaceholder (emails : List Email)
    (rs : List AnalysisData) (i : Nat) (e : Email)
    (hne : emails ≠ []) (hlen : emails.length ≤ 5)
    (hi : emails[i]? = some e) (homit : e.id ∉ resultIds rs) :
    (scoreRecentFinal emails (fun _ => BatchOutcome.ok rs))[i]? =
      some ⟨e, placeholderData e⟩
    ∧ (placeholderData e).score = -1
    ∧ placeholderData e ≠ failureData e.id := by
  refine ⟨?_, rfl, ?_⟩
  · have hchunk := chunk5_small emails hne hlen
    unfold scoreRecentFinal
    rw [if_neg (by simpa [List.isEmpty_iff] using hne), hchunk]
    show (mergeSuccess (seedEmails emails) rs)[i]? = some ⟨e, placeholderData e⟩
    exact getElem?_mergeSuccess_not_mem (seedEmails emails) rs i
      ⟨e, placeholderData e⟩ (getElem?_seedEmails emails i e hi) homit
  · intro hcontra
    have h2 := congrArg AnalysisData.score hcontra
    simp only [placeholderData, failureData] at h2
    omega

theorem scoreRecent_omittedId_keepsPlaceholder_witness :
    ([⟨"A", "sa"⟩, ⟨"B", "sb"⟩] : List Email) ≠ []
    ∧ ([⟨"A", "sa"⟩, ⟨"B", "sb"⟩] : List Email).length ≤ 5
    ∧ ([⟨"A", "sa"⟩, ⟨"B", "sb"⟩] : List Email)[1]? = some ⟨"B", "sb"⟩
    ∧ ("B" : String) ∉ resultIds [⟨"A", 90, "ta", [], [], []⟩]
    ∧ (scoreRecentFinal [⟨"A", "sa"⟩, ⟨"B", "sb"⟩]
        (fun _ => BatchOutcome.ok [⟨"A", 90, "ta", [], [], []⟩]))[1]? =
        some ⟨⟨"B", "sb"⟩, placeholderData ⟨"B", "sb"⟩⟩ := by
  refine ⟨by decide, by decide, by decide, by decide, ?_⟩
  exact (scoreRecent_omittedId_keepsPlaceholder [⟨"A", "sa"⟩, ⟨"B", "sb"⟩]
    [⟨"A", 90, "ta", [], [], []⟩] 1 ⟨"B", "sb"⟩
    (by decide) (by decide) (by decide) (by decide)).1

/-- C3: success merge semantics on a one-batch window.  (1) A returned entry
whose id matches a pending message overwrites that message's analysis record
in place.  (2) An entry whose id matches no window message is silently
dropped (the merge step is the identity).  (3) A message absent from the
returned array keeps its placeholder — score `-1` — indefinitely (e.g.
window `[A, B, C]`, results for `[A, C]` only: A, C scored, B still `-1`). -/
theorem mergeSuccess_overwrite_drop_keep (emails : List Email)
    (rs : List AnalysisData) (hw : (emailIds emails).Nodup)
    (hr : (resultIds rs).Nodup) :
    (∀ (i : Nat) (e : Email) (r : AnalysisData),
        emails[i]? = some e → r ∈ rs → r.id = e.id →
        (mergeSuccess (seedEmails emails) rs)[i]? = some ⟨e, r⟩)
    ∧ (∀ (t : String) (a : AnalysisData), t ∉ emailIds emails →
        updateById (seedEmails emails) t a = seedEmails emails)
    ∧ (∀ (i : Nat) (e : Email), emails[i]? = some e → e.id ∉ resultIds rs →
        (mergeSuccess (seedEmails emails) rs)[i]? =
          some ⟨e, placeholderData e⟩) := by
  have hwseed : (windowIds (seedEmails emails)).Nodup := by
    rw [windowIds_seedEmails]; exact hw
  refine ⟨?_, ?_, ?_⟩
  · intro i e r hi hmem hid
    rw [getElem?_mergeSuccess (seedEmails emails) rs i ⟨e, placeholderData e⟩
      hwseed (getElem?_seedEmails emails i e hi)]
    unfold applyLast
    rw [lastScoreFor_of_mem rs r e.id hr hmem hid]
  · intro t a ht
    exact updateById_not_mem (seedEmails emails) t a
      (by rw [windowIds_seedEmails]; exact ht)
  · intro i e hi homit
    exact getElem?_mergeSuccess_not_mem (seedEmails emails) rs i
      ⟨e, placeholderData e⟩ (getElem?_seedEmails emails i e hi) homit

theorem mergeSuccess_overwrite_drop_keep_witness :
    (emailIds [⟨"A", "sa"⟩, ⟨"B", "sb"⟩, ⟨"C", "sc"⟩]).Nodup
    ∧ (resultIds [⟨"A", 80, "ta", [], [], []⟩, ⟨"C", 20, "tc", [], [], []⟩]).Nodup
    ∧ (mergeSuccess (seedEmails [⟨"A", "sa"⟩, ⟨"B", "sb"⟩, ⟨"C", "sc"⟩])
        [⟨"A", 80, "ta", [], [], []⟩, ⟨"C", 20, "tc", [], [], []⟩])[0]? =
        some ⟨⟨"A", "sa"⟩, ⟨"A", 80, "ta", [], [], []⟩⟩
    ∧ (mergeSuccess (seedEmails [⟨"A", "sa"⟩, ⟨"B", "sb"⟩, ⟨"C", "sc"⟩])
        [⟨"A", 80, "ta", [], [], []⟩, ⟨"C", 20, "tc", [], [], []⟩])[2]? =
        some ⟨⟨"C", "sc"⟩, ⟨"C", 20, "tc", [], [], []⟩⟩
    ∧ (mergeSuccess (seedEmails [⟨"A", "sa"⟩, ⟨"B", "sb"⟩, ⟨"C", "sc"⟩])
        [⟨"A", 80, "ta", [], [], []⟩, ⟨"C", 20, "tc", [], [], []⟩])[1]? =
        some ⟨⟨"B", "sb"⟩, placeholderData ⟨"B", "sb"⟩⟩ := by
  have h := mergeSuccess_overwrite_drop_keep
    [⟨"A", "sa"⟩, ⟨"B", "sb"⟩, ⟨"C", "sc"⟩]
    [⟨"A", 80, "ta", [], [], []⟩, ⟨"C", 20, "tc", [], [], []⟩]
    (by decide) (by decide)
  refine ⟨by decide, by decide, ?_, ?_, ?_⟩
  · exact h.1 0 ⟨"A", "sa"⟩ ⟨"A", 80, "ta", [], [], []⟩ (by decide)
      (by decide) (by decide)
  · exact h.1 2 ⟨"C", "sc"⟩ ⟨"C", 20, "tc", [], [], []⟩ (by decide)
      (by decide) (by decide)
  · exact h.2.2 1 ⟨"B", "sb"⟩ (by decide) (by decide)

/-- C4: when a batch's inference call fails, the synthetic failure record
(`score = 0`, title `"AI analysis failed for this email."`, one negative
reason) is written for exactly the entries whose ids are in that batch;
every entry whose id is outside the batch — in particular every result
already set by a prior batch — is unchanged; and the loop still delivers one
sink payload per batch whatever each batch's outcome, so a failed batch
never aborts subsequent batches. -/
theorem mergeFailure_exactBatch (pes : List ProcessedEmail)
    (batch : List Email) (i : Nat) (pe : ProcessedEmail)
    (hw : (windowIds pes).Nodup) (hb : (emailIds batch).Nodup)
    (hi : pes[i]? = some pe) :
    (pe.email.id ∈ emailIds batch →
        (mergeFailure pes batch)[i]? =
          some ⟨pe.email, failureData pe.email.id⟩)
    ∧ (pe.email.id ∉ emailIds batch → (mergeFailure pes batch)[i]? = some pe)
    ∧ (failureData pe.email.id).score = 0
    ∧ (failureData pe.email.id).summarizedTitle =
        "AI analysis failed for this email."
    ∧ (failureData pe.email.id).negativeReasons =
        ["AI model failed to process this batch."]
    ∧ (∀ ai bs k qes, (runBatches ai bs k qes).length = bs.length) := by
  refine ⟨?_, ?_, rfl, rfl, rfl, fun ai bs k qes => runBatches_length ai bs k qes⟩
  · intro hmem
    rw [mergeFailure_eq_mergeSuccess]
    obtain ⟨e, he, hide⟩ : ∃ e ∈ batch, e.id = pe.email.id := by
      simp only [emailIds, List.mem_map] at hmem
      obtain ⟨e, he, hide⟩ := hmem
      exact ⟨e, he, hide⟩
    have hrn : (resultIds (batch.map fun e => failureData e.id)).Nodup := by
      rw [resultIds_failureRecords]; exact hb
    rw [getElem?_mergeSuccess _ _ i pe hw hi]
    unfold applyLast
    rw [show pe.email.id = (failureData e.id).id from by
          simp [failureData, hide]]
    rw [lastScoreFor_of_mem _ (failureData e.id) (failureData e.id).id hrn
      (List.mem_map_of_mem _ he) rfl]
    simp [failureData, hide]
  · intro hmem
    rw [mergeFailure_eq_mergeSuccess]
    exact getElem?_mergeSuccess_not_mem pes _ i pe hi
      (by rw [resultIds_failureRecords]; exact hmem)

theorem mergeFailure_exactBatch_witness :
    (windowIds [⟨⟨"A", "sa"⟩, ⟨"A", 77, "ta", ["p"], [], []⟩⟩,
        ⟨⟨"B", "sb"⟩, placeholderData ⟨"B", "sb"⟩⟩]).Nodup
    ∧ (emailIds [⟨"B", "sb"⟩]).Nodup
    ∧ (mergeFailure [⟨⟨"A", "sa"⟩, ⟨"A", 77, "ta", ["p"], [], []⟩⟩,
        ⟨⟨"B", "sb"⟩, placeholderData ⟨"B", "sb"⟩⟩] [⟨"B", "sb"⟩])[1]? =
        some ⟨⟨"B", "sb"⟩, failureData "B"⟩
    ∧ (mergeFailure [⟨⟨"A", "sa"⟩, ⟨"A", 77, "ta", ["p"], [], []⟩⟩,
        ⟨⟨"B", "sb"⟩, placeholderData ⟨"B", "sb"⟩⟩] [⟨"B", "sb"⟩])[0]? =
        some ⟨⟨"A", "sa"⟩, ⟨"A", 77, "ta", ["p"], [], []⟩⟩ := by
  refine ⟨by decide, by decide, ?_, ?_⟩
  · exact (mergeFailure_exactBatch _ [⟨"B", "sb"⟩] 1
      ⟨⟨"B", "sb"⟩, placeholderData ⟨"B", "sb"⟩⟩
      (by decide) (by decide) (by decide)).1 (by decide)
  · exact (mergeFailure_exactBatch _ [⟨"B", "sb"⟩] 0
      ⟨⟨"A", "sa"⟩, ⟨"A", 77, "ta", ["p"], [], []⟩⟩
      (by decide) (by decide) (by decide)).2.1 (by decide)

/-- C5 counterexample: in the no-credential state the label mutation does
NOT return `false` — the token check sits before the `try` block, so
`modifyEmail` throws (rejects) instead of being caught. -/
theorem modifyEmail_noToken_throws :
    modifyEmail false "m1" ["TRASH"] [] (HttpOutcome.response 200)
      = Except.error "Authentication token not found."
    ∧ modifyEmail false "m1" ["TRASH"] [] (HttpOutcome.response 200)
        ≠ Except.ok false
    ∧ modifyEmail false "m1" ["TRASH"] [] (HttpOutcome.response 200)
        ≠ Except.ok true := by
  refine ⟨rfl, fun h => Except.noConfusion h, fun h => Except.noConfusion h⟩

/-- C5 (amended): once a credential is present the label mutation never
throws — every transport or API failure is caught and returned as `false`,
and `true` is returned exactly on a 2xx response.  Without a credential it
throws `"Authentication token not found."` instead of returning `false`. -/
theorem modifyEmail_withToken_totalBoolean (mid : String)
    (addLabels removeLabels : List String) (o : HttpOutcome) :
    (∃ b, modifyEmail true mid addLabels removeLabels o = Except.ok b)
    ∧ (modifyEmail true mid addLabels removeLabels o = Except.ok true ↔
        ∃ s, o = HttpOutcome.response s ∧ statusOk s = true)
    ∧ modifyEmail false mid addLabels removeLabels o =
        Except.error "Authentication token not found." := by
  refine ⟨?_, ?_, rfl⟩
  · cases o with
    | networkError => exact ⟨false, rfl⟩
    | response s =>
        by_cases hs : statusOk s
        · exact ⟨true, by simp [modifyEmail, hs]⟩
        · exact ⟨false, by simp [modifyEmail, hs]⟩
  · cases o with
    | networkError =>
        constructor
        · intro h
          exact absurd h (fun h => by simp [modifyEmail] at h)
        · rintro ⟨s, hs, _⟩
          exact HttpOutcome.noConfusion hs
    | response s =>
        constructor
        · intro h
          refine ⟨s, rfl, ?_⟩
          by_cases hs : statusOk s
          · exact hs
          · simp [modifyEmail, hs] at h
        · rintro ⟨s2, hs2, hok⟩
          injection hs2 with hss
          subst hss
          simp [modifyEmail, hok]

/-- C6 counterexample: the presentation sink does mutate the collection's
order — handing `renderEmails` a two-element collection in ascending score
order leaves the shared array reordered. -/
theorem renderEmails_mutatesCollection :
    renderEmails [⟨⟨"A", "sa"⟩, ⟨"A", 10, "ta", [], [], []⟩⟩,
        ⟨⟨"B", "sb"⟩, ⟨"B", 50, "tb", [], [], []⟩⟩]
      ≠ [⟨⟨"A", "sa"⟩, ⟨"A", 10, "ta", [], [], []⟩⟩,
        ⟨⟨"B", "sb"⟩, ⟨"B", 50, "tb", [], [], []⟩⟩] := by
  decide

/-- C6 (amended): the presentation sink is not read-only — `renderEmails`
sorts the shared collection in place (score-descending) — but reordering is
all it does to the collection: the array content after a sink invocation is
a permutation of the content before it, with no element inserted, removed
or modified. -/
theorem renderEmails_permutes (emails : List ProcessedEmail) :
    List.Perm (renderEmails emails) emails := by
  unfold renderEmails
  cases h : emails.isEmpty with
  | true => simp [h]
  | false =>
      simp only [h, Bool.false_eq_true, if_false]
      exact sortByScoreDesc_perm emails

/-- C7: the presentation sort orders the collection score-descending,
pending placeholders (score `-1`, the minimum occurring score) sort last,
and the sort is stable — for every score value the subsequence of entries at
that score equals the input subsequence — and idempotent, so repeated
re-sorts of the same data cannot reorder ties. -/
theorem renderSort_stable_desc (l : List ProcessedEmail)
    (h : ∀ e ∈ l, -1 ≤ e.analysisData.score) :
    (sortByScoreDesc l).Pairwise scoreGE
    ∧ (∀ s : Int, (sortByScoreDesc l).filter (fun x => x.analysisData.score == s)
        = l.filter (fun x => x.analysisData.score == s))
    ∧ sortByScoreDesc (sortByScoreDesc l) = sortByScoreDesc l
    ∧ (sortByScoreDesc l).Pairwise
        (fun a b => a.analysisData.score = -1 → b.analysisData.score = -1) := by
  refine ⟨sorted_sortByScoreDesc l, fun s => filter_sortByScoreDesc l s,
    sortByScoreDesc_of_pairwise _ (sorted_sortByScoreDesc l), ?_⟩
  refine (sorted_sortByScoreDesc l).imp_of_mem ?_
  intro a b _ hb hab hA
  have hbl : b ∈ l := (sortByScoreDesc_perm l).subset hb
  have hge := h b hbl
  unfold scoreGE at hab
  omega

theorem renderSort_stable_desc_witness :
    (sortByScoreDesc [⟨⟨"A", "sa"⟩, ⟨"A", 10, "ta", [], [], []⟩⟩,
        ⟨⟨"B", "sb"⟩, ⟨"B", 50, "tb", [], [], []⟩⟩,
        ⟨⟨"C", "sc"⟩, ⟨"C", 50, "tc", [], [], []⟩⟩,
        ⟨⟨"D", "sd"⟩, placeholderData ⟨"D", "sd"⟩⟩]).Pairwise scoreGE
    ∧ (sortByScoreDesc [⟨⟨"A", "sa"⟩, ⟨"A", 10, "ta", [], [], []⟩⟩,
        ⟨⟨"B", "sb"⟩, ⟨"B", 50, "tb", [], [], []⟩⟩,
        ⟨⟨"C", "sc"⟩, ⟨"C", 50, "tc", [], [], []⟩⟩,
        ⟨⟨"D", "sd"⟩, placeholderData ⟨"D", "sd"⟩⟩]).filter
          (fun x => x.analysisData.score == 50)
      = ([⟨⟨"A", "sa"⟩, ⟨"A", 10, "ta", [], [], []⟩⟩,
        ⟨⟨"B", "sb"⟩, ⟨"B", 50, "tb", [], [], []⟩⟩,
        ⟨⟨"C", "sc"⟩, ⟨"C", 50, "tc", [], [], []⟩⟩,
        ⟨⟨"D", "sd"⟩, placeholderData ⟨"D", "sd"⟩⟩] :
          List ProcessedEmail).filter (fun x => x.analysisData.score == 50)
    ∧ sortByScoreDesc (sortByScoreDesc [⟨⟨"A", "sa"⟩, ⟨"A", 10, "ta", [], [], []⟩⟩,
        ⟨⟨"B", "sb"⟩, ⟨"B", 50, "tb", [], [], []⟩⟩,
        ⟨⟨"C", "sc"⟩, ⟨"C", 50, "tc", [], [], []⟩⟩,
        ⟨⟨"D", "sd"⟩, placeholderData ⟨"D", "sd"⟩⟩])
      = sortByScoreDesc [⟨⟨"A", "sa"⟩, ⟨"A", 10, "ta", [], [], []⟩⟩,
        ⟨⟨"B", "sb"⟩, ⟨"B", 50, "tb", [], [], []⟩⟩,
        ⟨⟨"C", "sc"⟩, ⟨"C", 50, "tc", [], [], []⟩⟩,
        ⟨⟨"D", "sd"⟩, placeholderData ⟨"D", "sd"⟩⟩] := by
  have h := renderSort_stable_desc
    [⟨⟨"A", "sa"⟩, ⟨"A", 10, "ta", [], [], []⟩⟩,
     ⟨⟨"B", "sb"⟩, ⟨"B", 50, "tb", [], [], []⟩⟩,
     ⟨⟨"C", "sc"⟩, ⟨"C", 50, "tc", [], [], []⟩⟩,
     ⟨⟨"D", "sd"⟩, placeholderData ⟨"D", "sd"⟩⟩] (by decide)
  exact ⟨h.1, h.2.1 50, h.2.2.1⟩

/-- C8: profile freshness.  With a persisted record (profile plus a positive
build timestamp, as `Date.now()` always writes): if `now - builtAt` is
within the 24h refresh interval the cached profile is returned and the
builder is not invoked; if `now - builtAt` exceeds the interval — or the
record is absent — the builder is invoked and its result returned. -/
theorem profileCache_freshness (p b : UserProfile) (t now : Int)
    (la : Option Int) (ht : 0 < t) :
    (now - t ≤ PROFILE_REFRESH_INTERVAL →
        getOrBuildProfile (some p) (some t) now b = (p, false))
    ∧ (PROFILE_REFRESH_INTERVAL < now - t →
        getOrBuildProfile (some p) (some t) now b = (b, true))
    ∧ getOrBuildProfile none la now b = (b, true)
    ∧ getOrBuildProfile (some p) none now b = (b, true) := by
  refine ⟨?_, ?_, rfl, by simp [getOrBuildProfile, isProfileStale]⟩
  · intro hfresh
    have hstale : isProfileStale (some t) now = false := by
      simp only [isProfileStale, Bool.or_eq_false_iff, beq_eq_false_iff_ne,
        decide_eq_false_iff_not, not_lt]
      exact ⟨by omega, hfresh⟩
    simp [getOrBuildProfile, hstale]
  · intro hstale2
    have hstale : isProfileStale (some t) now = true := by
      simp only [isProfileStale, Bool.or_eq_true, decide_eq_true_eq]
      exact Or.inr hstale2
    simp [getOrBuildProfile, hstale]

theorem profileCache_freshness_witness :
    getOrBuildProfile (some ⟨["s"], ["k"], [], []⟩) (some 1699913599999)
        1700000000000 ⟨[], [], [], ["new"]⟩ = (⟨[], [], [], ["new"]⟩, true)
    ∧ getOrBuildProfile (some ⟨["s"], ["k"], [], []⟩) (some 1699999999999)
        1700000000000 ⟨[], [], [], ["new"]⟩ = (⟨["s"], ["k"], [], []⟩, false)
    ∧ getOrBuildProfile none none 1700000000000 ⟨[], [], [], ["new"]⟩ =
        (⟨[], [], [], ["new"]⟩, true) := by
  refine ⟨?_, ?_, ?_⟩
  · exact (profileCache_freshness ⟨["s"], ["k"], [], []⟩ ⟨[], [], [], ["new"]⟩
      1699913599999 1700000000000 none (by decide)).2.1 (by decide)
  · exact (profileCache_freshness ⟨["s"], ["k"], [], []⟩ ⟨[], [], [], ["new"]⟩
      1699999999999 1700000000000 none (by decide)).1 (by decide)
  · exact (profileCache_freshness ⟨["s"], ["k"], [], []⟩ ⟨[], [], [], ["new"]⟩
      1 1700000000000 none (by decide)).2.2.1

/-- C9: sink invocation count of `scoreRecentEmails` as a function of the
window size `n`.  Empty window: the sink is invoked exactly once, with the
empty collection, and the inference service is never invoked.  Nonempty
window: the sink is invoked exactly `1 + ⌈n / 5⌉` times — the placeholder
seed plus one invocation per batch, success or failure (3 times for a
7-message window). -/
theorem scoreRecent_sinkCount (fetched : List Email) (ai : Nat → BatchOutcome) :
    (fetched = [] →
        scoreRecentTrace fetched ai = [[]] ∧ scoreRecentAiCalls fetched = 0)
    ∧ (fetched ≠ [] →
        (scoreRecentTrace fetched ai).length = 1 + (fetched.length + 4) / 5) := by
  constructor
  · rintro rfl
    exact ⟨rfl, rfl⟩
  · intro hne
    unfold scoreRecentTrace
    rw [if_neg (by simpa [List.isEmpty_iff] using hne)]
    simp only [List.length_cons, runBatches_length, chunk5_length]
    omega

theorem scoreRecent_sinkCount_witness :
    scoreRecentTrace [] (fun _ => BatchOutcome.err) = [[]]
    ∧ scoreRecentAiCalls [] = 0
    ∧ (scoreRecentTrace [⟨"1", ""⟩, ⟨"2", ""⟩, ⟨"3", ""⟩, ⟨"4", ""⟩,
        ⟨"5", ""⟩, ⟨"6", ""⟩, ⟨"7", ""⟩] (fun _ => BatchOutcome.err)).length =
        1 + (([⟨"1", ""⟩, ⟨"2", ""⟩, ⟨"3", ""⟩, ⟨"4", ""⟩,
        ⟨"5", ""⟩, ⟨"6", ""⟩, ⟨"7", ""⟩] : List Email).length + 4) / 5
    ∧ (scoreRecentTrace [⟨"1", ""⟩, ⟨"2", ""⟩, ⟨"3", ""⟩, ⟨"4", ""⟩,
        ⟨"5", ""⟩, ⟨"6", ""⟩, ⟨"7", ""⟩] (fun _ => BatchOutcome.err)).length = 3 := by
  have h0 := (scoreRecent_sinkCount [] (fun _ => BatchOutcome.err)).1 rfl
  have h7 := (scoreRecent_sinkCount [⟨"1", ""⟩, ⟨"2", ""⟩, ⟨"3", ""⟩, ⟨"4", ""⟩,
    ⟨"5", ""⟩, ⟨"6", ""⟩, ⟨"7", ""⟩] (fun _ => BatchOutcome.err)).2 (by decide)
  exact ⟨h0.1, h0.2, h7, by rw [h7]; decide⟩

/-- C10 (implicit): the success-path merge matches returned ids against the
ENTIRE accumulated window collection, not only the current batch and not
only pending entries — the collection `pes` here is arbitrary: the matched
entry's previous analysis record may be a finalized score or a failure
record from an earlier batch, and it is overwritten all the same. -/
theorem mergeSuccess_matchesWholeWindow (pes : List ProcessedEmail)
    (rs : List AnalysisData) (i : Nat) (pe : ProcessedEmail) (r : AnalysisData)
    (hw : (windowIds pes).Nodup) (hr : (resultIds rs).Nodup)
    (hi : pes[i]? = some pe) (hmem : r ∈ rs) (hid : r.id = pe.email.id) :
    (mergeSuccess pes rs)[i]? = some ⟨pe.email, r⟩ := by
  rw [getElem?_mergeSuccess pes rs i pe hw hi]
  unfold applyLast
  rw [lastScoreFor_of_mem rs r pe.email.id hr hmem hid]

theorem mergeSuccess_matchesWholeWindow_witness :
    (windowIds [⟨⟨"A", "sa"⟩, ⟨"A", 77, "ta", [], [], []⟩⟩,
        ⟨⟨"B", "sb"⟩, failureData "B"⟩]).Nodup
    ∧ (resultIds [⟨"B", 33, "tb2", [], [], []⟩]).Nodup
    ∧ (mergeSuccess [⟨⟨"A", "sa"⟩, ⟨"A", 77, "ta", [], [], []⟩⟩,
        ⟨⟨"B", "sb"⟩, failureData "B"⟩] [⟨"B", 33, "tb2", [], [], []⟩])[1]? =
        some ⟨⟨"B", "sb"⟩, ⟨"B", 33, "tb2", [], [], []⟩⟩ := by
  refine ⟨by decide, by decide, ?_⟩
  exact mergeSuccess_matchesWholeWindow
    [⟨⟨"A", "sa"⟩, ⟨"A", 77, "ta", [], [], []⟩⟩, ⟨⟨"B", "sb"⟩, failureData "B"⟩]
    [⟨"B", 33, "tb2", [], [], []⟩] 1 ⟨⟨"B", "sb"⟩, failureData "B"⟩
    ⟨"B", 33, "tb2", [], [], []⟩ (by decide) (by decide) (by decide)
    (by decide) (by decide)
